import Mathlib

/-!
Verification of the hill-climbing step generator of `mljar-supervised`
(`supervised/tuner/hill_climbing.py`), checked against its natural-language
specification.

The Python function `HillClimbing.get(params, ml_task, seed)` is embedded
shallowly:

* a Python `dict` (a configuration) is an association list with the keys in
  insertion order (`Config`);
* Python scalar values (numbers, strings, `None`) are the inductive `Value`,
  with rationals standing for the numeric literals of the parameter tables;
* the fallible operations (`list.remove`, `dict[...]`, reading the unbound
  local `values`) return `Except PyErr`;
* the process-wide numpy random generator is threaded explicitly as an
  `NpState` value: `np.random.seed` overwrites it as a function of the seed,
  `np.random.permutation` produces a state-determined permutation of its
  argument and advances the state.  numpy is an external library, so its
  generator is modelled abstractly (any concrete seed-determined permutation);
  every theorem that depends on the permutation only uses the facts exposed
  here, never which particular permutation is produced.
-/

/-- Scalar value of a configuration entry or a search-space sequence:
a number, a string, or Python `None` (`Value.null`). -/
inductive Value where
  | str : String → Value
  | num : ℚ → Value
  | null : Value
deriving DecidableEq, Repr

/-- Python exceptions that `HillClimbing.get` can raise. -/
inductive PyErr where
  /-- `list.remove(x)` with `x` not in the list. -/
  | valueError : PyErr
  /-- indexing a `dict` with a missing key. -/
  | keyError : PyErr
  /-- reading the local `values` when the selection loop never ran
  (`NameError: name 'values' is not defined`, line 43 of the source). -/
  | nameErrorValues : PyErr
deriving DecidableEq, Repr

/-- A Python dict with string keys, as an insertion-ordered association list. -/
abbrev Config := List (String × Value)

/-- Search space of one model: parameter name to its ordered value sequence
(the `"params"` entry of a registry record, e.g. `xgb_bin_class_params`). -/
abbrev SearchSpace := List (String × List Value)

/-- Modelled from the spec: `AlgorithmsRegistry.registry`
(`supervised/algorithms/registry.py`, not among the given sources) maps an
`ml_task` to a mapping from model-type name to the model's declared search
space; only the `"params"` search-space component is consulted here, so the
registry is modelled as that mapping directly. -/
abbrev Registry := List (String × List (String × SearchSpace))

/-- First-match lookup in an association list (Python `dict` access; keys are
unique in a real dict, so first match is the dict's value). -/
def lookupKey {α : Type} : List (String × α) → String → Option α
  | [], _ => Option.none
  | (k0, v0) :: rest, k => if k0 = k then Option.some v0 else lookupKey rest k

/-- Value held by a configuration at a key (`params[k]`), if present. -/
def Config.get (c : Config) (k : String) : Option Value := lookupKey c k

/-- Python `d[k] = v` on a dict: replace the value at `k` keeping its
position, or append `(k, v)` when `k` is absent. -/
def Config.set : Config → String → Value → Config
  | [], k, v => [(k, v)]
  | (k0, v0) :: rest, k, v =>
    if k0 = k then (k, v) :: rest else (k0, v0) :: Config.set rest k v

/-- The key list of a configuration, in insertion order (`list(params.keys())`). -/
def configKeys (c : Config) : List String := c.map Prod.fst

/-- Lines 22–27 of the source: drop `"num_class"` from the key list when
present, then `remove` the reserved keys `"model_type"`, `"seed"`,
`"ml_task"`; each `remove` deletes the first occurrence and raises
`ValueError` when the name is absent. -/
def removeReserved (ks : List String) : Except PyErr (List String) :=
  let ks1 := if "num_class" ∈ ks then ks.erase "num_class" else ks
  if "model_type" ∈ ks1 then
    let ks2 := ks1.erase "model_type"
    if "seed" ∈ ks2 then
      let ks3 := ks2.erase "seed"
      if "ml_task" ∈ ks3 then Except.ok (ks3.erase "ml_task")
      else Except.error PyErr.valueError
    else Except.error PyErr.valueError
  else Except.error PyErr.valueError

/-- Line 32 of the source, `AlgorithmsRegistry.registry[ml_task][model_type]`
followed by taking `"params"`: a nested lookup that raises `KeyError`
(here: `Option.none`) when either level is missing; a non-string
`model_type` value is never a registered key. -/
def registryLookup (reg : Registry) (task : String) (mt : Value) : Option SearchSpace :=
  match mt with
  | Value.str s =>
    match lookupKey reg task with
    | Option.none => Option.none
    | Option.some byModel => lookupKey byModel s
  | _ => Option.none

/-- State of the process-wide numpy random generator, modelled abstractly. -/
structure NpState where
  st : Nat
deriving DecidableEq, Repr

/-- Model of `np.random.seed(seed)`: the global state is overwritten with a
state determined by the seed alone. -/
def npSeed (seed : Nat) : NpState := ⟨seed⟩

/-- Model of `np.random.permutation(l)`: a permutation of `l` determined by
the current global state, which the call advances.  The concrete choice
(a rotation) is immaterial: theorems about the selection use only that the
result is some list of keys, and `npPermutation_perm` records that it is a
permutation of the input. -/
def npPermutation (g : NpState) (l : List String) : List String × NpState :=
  (l.rotate g.st, ⟨g.st + 1⟩)

/-- Lines 35–40 of the source: scan the permuted keys in order, binding
`key_to_update` and `values = model_params[key]` at each step, and `break` at
the first key whose sequence has length > 1.  The result is that first long
key, else the bindings of the last iteration, else (empty list) nothing —
in which case the local `values` is never assigned. -/
def selectLoop (mp : SearchSpace) : List String → Except PyErr (Option (String × List Value))
  | [] => Except.ok Option.none
  | k :: rest =>
    match lookupKey mp k with
    | Option.none => Except.error PyErr.keyError
    | Option.some vs =>
      if 1 < vs.length then Except.ok (Option.some (k, vs))
      else
        match selectLoop mp rest with
        | Except.ok Option.none => Except.ok (Option.some (k, vs))
        | Except.ok (Option.some kv) => Except.ok (Option.some kv)
        | Except.error e => Except.error e

/-- One iteration `i` of the neighbor scan (lines 43–48): when
`values[i] == params[key]`, set `right` to `values[i+1]` if that index
exists, and `left` to `values[i-1]` if `i ≥ 1`; otherwise keep the
accumulated pair `(left, right)`. -/
def scanStep (vs : List Value) (cur : Value) (acc : Value × Value) (i : Nat) : Value × Value :=
  if vs.getD i Value.null = cur then
    ((if 1 ≤ i then vs.getD (i - 1) Value.null else acc.1),
     (if i + 1 < vs.length then vs.getD (i + 1) Value.null else acc.2))
  else acc

/-- The whole neighbor scan: `left, right = None, None` followed by the
`enumerate(values)` loop. -/
def neighborScan (vs : List Value) (cur : Value) : Value × Value :=
  (List.range vs.length).foldl (scanStep vs cur) (Value.null, Value.null)

/-- The returned pair of the step generator: each side a configuration or
absent. -/
abbrev StepResult := Option Config × Option Config

/-- Lines 50–56 of the source: build `params_1` from `left` and `params_2`
from `right` when they are not `None`, each a deep copy of the input with
only the selected key reassigned. -/
def buildResult (params : Config) (k : String) (lr : Value × Value) : StepResult :=
  ((if lr.1 ≠ Value.null then Option.some (Config.set params k lr.1) else Option.none),
   (if lr.2 ≠ Value.null then Option.some (Config.set params k lr.2) else Option.none))

/-- The neighbor scan over the selected key's sequence: with an empty
sequence the loop never runs (both sides stay `None`); otherwise
`params[key_to_update]` is read (a `KeyError` when the key is absent from
the configuration) and the scan decides the pair. -/
def hcScanPart (params : Config) (k : String) (vs : List Value) : Except PyErr StepResult :=
  match vs with
  | [] => Except.ok (Option.none, Option.none)
  | _ :: _ =>
    match Config.get params k with
    | Option.none => Except.error PyErr.keyError
    | Option.some cur => Except.ok (buildResult params k (neighborScan vs cur))

/-- Selection followed by the scan: when the selection loop never ran the
local `values` is unbound and line 43 raises `NameError`. -/
def hcAfter (mp : SearchSpace) (params : Config) (permuted : List String) :
    Except PyErr StepResult :=
  match selectLoop mp permuted with
  | Except.error e => Except.error e
  | Except.ok Option.none => Except.error PyErr.nameErrorValues
  | Except.ok (Option.some (k, vs)) => hcScanPart params k vs

/-- The embedded `HillClimbing.get(params, ml_task, seed)` with the
process-wide numpy generator threaded explicitly: the call first reseeds the
global generator, removes the reserved keys (raising `ValueError` when one is
absent), short-circuits for the `"Baseline"` model type, looks up the search
space, permutes the tunable keys (advancing the global generator), selects a
key and returns the neighbor configurations. -/
def HillClimbing.get (reg : Registry) (params : Config) (ml_task : String) (seed : Nat)
    (_g : NpState) : Except PyErr StepResult × NpState :=
  let g1 := npSeed seed
  match removeReserved (configKeys params) with
  | Except.error e => (Except.error e, g1)
  | Except.ok ks =>
    match Config.get params "model_type" with
    | Option.none => (Except.error PyErr.keyError, g1)
    | Option.some mt =>
      if mt = Value.str "Baseline" then (Except.ok (Option.none, Option.none), g1)
      else
        match registryLookup reg ml_task mt with
        | Option.none => (Except.error PyErr.keyError, g1)
        | Option.some mp =>
          (hcAfter mp params ((npPermutation g1 ks).1), (npPermutation g1 ks).2)

/-- The reserved keys never eligible for perturbation. -/
def reservedKeys : List String := ["model_type", "seed", "ml_task", "num_class"]

/-- Well-formed input in the sense of the specification: keys are unique
(as in any Python dict), the three mandatory reserved keys are present, and
unless the model type is `"Baseline"` the pair `(ml_task, model_type)` is
registered, every non-reserved configuration key appears in the registered
search space, and every registered value sequence is non-empty. -/
def wellFormed (reg : Registry) (params : Config) (task : String) : Bool :=
  decide (configKeys params).Nodup
  && decide ("model_type" ∈ configKeys params)
  && decide ("seed" ∈ configKeys params)
  && decide ("ml_task" ∈ configKeys params)
  && (match Config.get params "model_type" with
      | Option.some mt =>
        if mt = Value.str "Baseline" then true
        else
          match registryLookup reg task mt with
          | Option.none => false
          | Option.some mp =>
            (configKeys params).all
              (fun k => decide (k ∈ reservedKeys) || (lookupKey mp k).isSome)
            && mp.all (fun p => decide (p.2 ≠ []))
      | Option.none => false)

/-- The key (with its value sequence) that the call selects for perturbation,
when the run reaches the selection loop and the loop binds one. -/
def selectedOf (reg : Registry) (params : Config) (task : String) (seed : Nat) :
    Option (String × List Value) :=
  match removeReserved (configKeys params) with
  | Except.error _ => Option.none
  | Except.ok ks =>
    match Config.get params "model_type" with
    | Option.none => Option.none
    | Option.some mt =>
      if mt = Value.str "Baseline" then Option.none
      else
        match registryLookup reg task mt with
        | Option.none => Option.none
        | Option.some mp =>
          match selectLoop mp ((npPermutation (npSeed seed) ks).1) with
          | Except.ok (Option.some kv) => Option.some kv
          | _ => Option.none

example :
    HillClimbing.get [("t", [("M", [("p", [Value.str "a", Value.str "b", Value.str "c"])])])]
      [("model_type", Value.str "M"), ("seed", Value.num 1), ("ml_task", Value.str "t"),
        ("p", Value.str "b")] "t" 1 ⟨0⟩
    = (Except.ok
        (Option.some [("model_type", Value.str "M"), ("seed", Value.num 1),
          ("ml_task", Value.str "t"), ("p", Value.str "a")],
         Option.some [("model_type", Value.str "M"), ("seed", Value.num 1),
          ("ml_task", Value.str "t"), ("p", Value.str "c")]),
       ⟨2⟩) := rfl

/-- Largest index `i < n` whose entry equals the current value and has a
successor position (`i + 1 < vs.length`); this is the index whose successor
the scan leaves in `right`. -/
def rightIdxUpTo (vs : List Value) (cur : Value) : Nat → Option Nat
  | 0 => Option.none
  | Nat.succ n =>
    if vs.getD n Value.null = cur ∧ n + 1 < vs.length then Option.some n
    else rightIdxUpTo vs cur n

/-- Largest index `i < n` whose entry equals the current value and is
positive; this is the index whose predecessor the scan leaves in `left`. -/
def leftIdxUpTo (vs : List Value) (cur : Value) : Nat → Option Nat
  | 0 => Option.none
  | Nat.succ n =>
    if vs.getD n Value.null = cur ∧ 1 ≤ n then Option.some n
    else leftIdxUpTo vs cur n

/-- Value after the recorded right index, `None` when there is none. -/
def idxValR (vs : List Value) : Option Nat → Value
  | Option.none => Value.null
  | Option.some i => vs.getD (i + 1) Value.null

/-- Value before the recorded left index, `None` when there is none. -/
def idxValL (vs : List Value) : Option Nat → Value
  | Option.none => Value.null
  | Option.some i => vs.getD (i - 1) Value.null

/-- Largest index `i < n` whose entry equals the current value: the last
match of the scan. -/
def lastIdxUpTo (vs : List Value) (cur : Value) : Nat → Option Nat
  | 0 => Option.none
  | Nat.succ n =>
    if vs.getD n Value.null = cur then Option.some n else lastIdxUpTo vs cur n

/-- The last index of `vs` holding the current value, if any. -/
def lastIdxOf (vs : List Value) (cur : Value) : Option Nat :=
  lastIdxUpTo vs cur vs.length

theorem scanFold_eq (vs : List Value) (cur : Value) (n : Nat) :
    (List.range n).foldl (scanStep vs cur) (Value.null, Value.null)
      = (idxValL vs (leftIdxUpTo vs cur n), idxValR vs (rightIdxUpTo vs cur n)) := by
  induction n with
  | zero => rfl
  | succ n ih =>
    rw [List.range_succ, List.foldl_append, ih]
    simp only [List.foldl_cons, List.foldl_nil, scanStep, leftIdxUpTo, rightIdxUpTo]
    by_cases h : vs.getD n Value.null = cur
    · rw [if_pos h]
      by_cases h1 : 1 ≤ n
      · rw [if_pos h1, if_pos (And.intro h h1)]
        by_cases h2 : n + 1 < vs.length
        · rw [if_pos h2, if_pos (And.intro h h2)]
          rfl
        · rw [if_neg h2, if_neg (fun hc => h2 (And.right hc))]
          rfl
      · rw [if_neg h1, if_neg (fun hc => h1 (And.right hc))]
        by_cases h2 : n + 1 < vs.length
        · rw [if_pos h2, if_pos (And.intro h h2)]
          rfl
        · rw [if_neg h2, if_neg (fun hc => h2 (And.right hc))]
    · rw [if_neg h, if_neg (fun hc => h (And.left hc)),
        if_neg (fun hc => h (And.left hc))]

theorem neighborScan_eq (vs : List Value) (cur : Value) :
    neighborScan vs cur
      = (idxValL vs (leftIdxUpTo vs cur vs.length),
         idxValR vs (rightIdxUpTo vs cur vs.length)) :=
  scanFold_eq vs cur vs.length

theorem getD_ne_of_not_mem (vs : List Value) (cur : Value) (n : Nat)
    (hlt : n < vs.length) (hcur : cur ∉ vs) :
    vs.getD n Value.null ≠ cur := by
  intro he
  rw [List.getD_eq_getElem vs Value.null hlt] at he
  exact hcur (he ▸ List.getElem_mem hlt)

theorem rightIdxUpTo_of_not_mem (vs : List Value) (cur : Value) (n : Nat)
    (hn : n ≤ vs.length) (hcur : cur ∉ vs) :
    rightIdxUpTo vs cur n = Option.none := by
  induction n with
  | zero => rfl
  | succ n ih =>
    have hne := getD_ne_of_not_mem vs cur n hn hcur
    simp only [rightIdxUpTo, hne, false_and, if_false]
    exact ih (Nat.le_of_succ_le hn)

theorem leftIdxUpTo_of_not_mem (vs : List Value) (cur : Value) (n : Nat)
    (hn : n ≤ vs.length) (hcur : cur ∉ vs) :
    leftIdxUpTo vs cur n = Option.none := by
  induction n with
  | zero => rfl
  | succ n ih =>
    have hne := getD_ne_of_not_mem vs cur n hn hcur
    simp only [leftIdxUpTo, hne, false_and, if_false]
    exact ih (Nat.le_of_succ_le hn)

theorem neighborScan_of_not_mem (vs : List Value) (cur : Value) (hcur : cur ∉ vs) :
    neighborScan vs cur = (Value.null, Value.null) := by
  rw [neighborScan_eq, rightIdxUpTo_of_not_mem vs cur vs.length (Nat.le_refl _) hcur,
    leftIdxUpTo_of_not_mem vs cur vs.length (Nat.le_refl _) hcur]
  rfl

theorem rightIdxUpTo_unique (vs : List Value) (cur : Value) (j : Nat)
    (hj : j < vs.length) (hval : vs.getD j Value.null = cur)
    (huniq : ∀ i, i < vs.length → vs.getD i Value.null = cur → i = j) (n : Nat)
    (hn : n ≤ vs.length) :
    rightIdxUpTo vs cur n
      = if j < n ∧ j + 1 < vs.length then Option.some j else Option.none := by
  induction n with
  | zero =>
    rw [if_neg (fun hc => Nat.not_lt_zero j hc.1)]
    rfl
  | succ n ih =>
    simp only [rightIdxUpTo]
    by_cases h : vs.getD n Value.null = cur
    · have hnj : n = j := huniq n hn h
      subst hnj
      by_cases h2 : n + 1 < vs.length
      · rw [if_pos (And.intro h h2), if_pos (And.intro (Nat.lt_succ_self n) h2)]
      · rw [if_neg (fun hc => h2 (And.right hc)), ih (Nat.le_of_succ_le hn),
          if_neg (fun hc => h2 (And.right hc)), if_neg (fun hc => h2 (And.right hc))]
    · have hne : n ≠ j := fun he => h (he ▸ hval)
      rw [if_neg (fun hc => h (And.left hc)), ih (Nat.le_of_succ_le hn)]
      by_cases hjn : j < n ∧ j + 1 < vs.length
      · rw [if_pos hjn, if_pos (And.intro (Nat.lt_succ_of_lt hjn.1) hjn.2)]
      · rw [if_neg hjn,
          if_neg (fun hc => hjn (And.intro
            (Nat.lt_of_le_of_ne (Nat.le_of_lt_succ hc.1) (fun he => hne he.symm)) hc.2))]

theorem leftIdxUpTo_unique (vs : List Value) (cur : Value) (j : Nat)
    (hj : j < vs.length) (hval : vs.getD j Value.null = cur)
    (huniq : ∀ i, i < vs.length → vs.getD i Value.null = cur → i = j) (n : Nat)
    (hn : n ≤ vs.length) :
    leftIdxUpTo vs cur n
      = if j < n ∧ 1 ≤ j then Option.some j else Option.none := by
  induction n with
  | zero =>
    rw [if_neg (fun hc => Nat.not_lt_zero j hc.1)]
    rfl
  | succ n ih =>
    simp only [leftIdxUpTo]
    by_cases h : vs.getD n Value.null = cur
    · have hnj : n = j := huniq n hn h
      subst hnj
      by_cases h2 : 1 ≤ n
      · rw [if_pos (And.intro h h2), if_pos (And.intro (Nat.lt_succ_self n) h2)]
      · rw [if_neg (fun hc => h2 (And.right hc)), ih (Nat.le_of_succ_le hn),
          if_neg (fun hc => h2 (And.right hc)), if_neg (fun hc => h2 (And.right hc))]
    · have hne : n ≠ j := fun he => h (he ▸ hval)
      rw [if_neg (fun hc => h (And.left hc)), ih (Nat.le_of_succ_le hn)]
      by_cases hjn : j < n ∧ 1 ≤ j
      · rw [if_pos hjn, if_pos (And.intro (Nat.lt_succ_of_lt hjn.1) hjn.2)]
      · rw [if_neg hjn,
          if_neg (fun hc => hjn (And.intro
            (Nat.lt_of_le_of_ne (Nat.le_of_lt_succ hc.1) (fun he => hne he.symm)) hc.2))]

theorem neighborScan_unique (vs : List Value) (cur : Value) (j : Nat)
    (hj : j < vs.length) (hval : vs.getD j Value.null = cur)
    (huniq : ∀ i, i < vs.length → vs.getD i Value.null = cur → i = j) :
    neighborScan vs cur
      = ((if 1 ≤ j then vs.getD (j - 1) Value.null else Value.null),
         (if j + 1 < vs.length then vs.getD (j + 1) Value.null else Value.null)) := by
  rw [neighborScan_eq,
    rightIdxUpTo_unique vs cur j hj hval huniq vs.length (Nat.le_refl _),
    leftIdxUpTo_unique vs cur j hj hval huniq vs.length (Nat.le_refl _)]
  by_cases h1 : 1 ≤ j
  · rw [if_pos (And.intro hj h1), if_pos h1]
    by_cases h2 : j + 1 < vs.length
    · rw [if_pos (And.intro hj h2), if_pos h2]
      rfl
    · rw [if_neg (fun hc => h2 (And.right hc)), if_neg h2]
      rfl
  · rw [if_neg (fun hc => h1 (And.right hc)), if_neg h1]
    by_cases h2 : j + 1 < vs.length
    · rw [if_pos (And.intro hj h2), if_pos h2]
      rfl
    · rw [if_neg (fun hc => h2 (And.right hc)), if_neg h2]
      rfl


theorem lookupKey_set_self (c : Config) (k : String) (v : Value) :
    lookupKey (Config.set c k v) k = Option.some v := by
  induction c with
  | nil => simp [Config.set, lookupKey]
  | cons p rest ih =>
    obtain ⟨k0, v0⟩ := p
    by_cases h : k0 = k
    · simp [Config.set, h, lookupKey]
    · simp [Config.set, h, lookupKey, ih]

theorem lookupKey_set_ne (c : Config) (k j : String) (v : Value) (hne : j ≠ k) :
    lookupKey (Config.set c k v) j = lookupKey c j := by
  have hkj : ¬ k = j := fun he => hne he.symm
  induction c with
  | nil =>
    simp only [Config.set, lookupKey]
    rw [if_neg hkj]
  | cons p rest ih =>
    obtain ⟨k0, v0⟩ := p
    by_cases h : k0 = k
    · subst h
      simp only [Config.set, if_pos rfl, lookupKey]
      rw [if_neg hkj, if_neg hkj]
    · simp only [Config.set, if_neg h, lookupKey]
      by_cases hj : k0 = j
      · rw [if_pos hj, if_pos hj]
      · rw [if_neg hj, if_neg hj, ih]

theorem mem_configKeys_of_lookup {c : Config} {k : String} {v : Value}
    (h : lookupKey c k = Option.some v) : k ∈ configKeys c := by
  induction c with
  | nil => simp [lookupKey] at h
  | cons p rest ih =>
    obtain ⟨k0, v0⟩ := p
    by_cases hk : k0 = k
    · subst hk
      simp [configKeys]
    · simp only [lookupKey, if_neg hk] at h
      simp [configKeys] at ih ⊢
      exact Or.inr (ih h)

theorem selectLoop_mem {mp : SearchSpace} {l : List String} {k : String} {vs : List Value}
    (h : selectLoop mp l = Except.ok (Option.some (k, vs))) :
    k ∈ l ∧ lookupKey mp k = Option.some vs := by
  induction l with
  | nil => simp [selectLoop] at h
  | cons k0 rest ih =>
    cases hlk : lookupKey mp k0 with
    | none => simp [selectLoop, hlk] at h
    | some vs0 =>
      simp only [selectLoop, hlk] at h
      by_cases hlen : 1 < vs0.length
      · rw [if_pos hlen] at h
        simp only [Except.ok.injEq, Option.some.injEq, Prod.mk.injEq] at h
        obtain ⟨hk, hv⟩ := h
        subst hk
        subst hv
        exact ⟨List.mem_cons_self _ _, hlk⟩
      · rw [if_neg hlen] at h
        cases hrec : selectLoop mp rest with
        | error e => rw [hrec] at h; simp at h
        | ok o =>
          cases o with
          | none =>
            rw [hrec] at h
            simp only [Except.ok.injEq, Option.some.injEq, Prod.mk.injEq] at h
            obtain ⟨hk, hv⟩ := h
            subst hk
            subst hv
            exact ⟨List.mem_cons_self _ _, hlk⟩
          | some kv =>
            rw [hrec] at h
            simp only [Except.ok.injEq, Option.some.injEq] at h
            subst h
            obtain ⟨hmem, hlkk⟩ := ih hrec
            exact ⟨List.mem_cons_of_mem _ hmem, hlkk⟩

theorem removeReserved_subset {ks ks' : List String}
    (h : removeReserved ks = Except.ok ks') {a : String} (ha : a ∈ ks') : a ∈ ks := by
  by_cases hnc : "num_class" ∈ ks
  · simp only [removeReserved, if_pos hnc] at h
    split at h
    · split at h
      · split at h
        · simp only [Except.ok.injEq] at h
          subst h
          exact List.erase_subset _ _ (List.erase_subset _ _
            (List.erase_subset _ _ (List.erase_subset _ _ ha)))
        · simp at h
      · simp at h
    · simp at h
  · simp only [removeReserved, if_neg hnc] at h
    split at h
    · split at h
      · split at h
        · simp only [Except.ok.injEq] at h
          subst h
          exact List.erase_subset _ _ (List.erase_subset _ _ (List.erase_subset _ _ ha))
        · simp at h
      · simp at h
    · simp at h

theorem nodupKeys_not_reserved_after {ks1 ks' : List String} (hnd1 : ks1.Nodup)
    (hnc1 : "num_class" ∉ ks1)
    (h : ks' = ((ks1.erase "model_type").erase "seed").erase "ml_task") :
    "model_type" ∉ ks' ∧ "seed" ∉ ks' ∧ "ml_task" ∉ ks' ∧ "num_class" ∉ ks' := by
  subst h
  have hnd2 := hnd1.erase "model_type"
  have hnd3 := hnd2.erase "seed"
  refine ⟨?_, ?_, ?_, ?_⟩
  · intro hmem
    have h1 := List.erase_subset _ _ hmem
    have h2 := List.erase_subset _ _ h1
    exact hnd1.not_mem_erase h2
  · intro hmem
    have h1 := List.erase_subset _ _ hmem
    exact hnd2.not_mem_erase h1
  · intro hmem
    exact hnd3.not_mem_erase hmem
  · intro hmem
    have h1 := List.erase_subset _ _ hmem
    have h2 := List.erase_subset _ _ h1
    have h3 := List.erase_subset _ _ h2
    exact hnc1 h3

theorem removeReserved_not_reserved {ks ks' : List String} (hnd : ks.Nodup)
    (h : removeReserved ks = Except.ok ks') :
    "model_type" ∉ ks' ∧ "seed" ∉ ks' ∧ "ml_task" ∉ ks' ∧ "num_class" ∉ ks' := by
  by_cases hnc : "num_class" ∈ ks
  · simp only [removeReserved, if_pos hnc] at h
    split at h
    · split at h
      · split at h
        · simp only [Except.ok.injEq] at h
          exact nodupKeys_not_reserved_after (hnd.erase _) hnd.not_mem_erase h.symm
        · simp at h
      · simp at h
    · simp at h
  · simp only [removeReserved, if_neg hnc] at h
    split at h
    · split at h
      · split at h
        · simp only [Except.ok.injEq] at h
          exact nodupKeys_not_reserved_after hnd hnc h.symm
        · simp at h
      · simp at h
    · simp at h

theorem removeReserved_ok_of_mem {ks : List String}
    (hm : "model_type" ∈ ks) (hs : "seed" ∈ ks) (ht : "ml_task" ∈ ks) :
    removeReserved ks
      = Except.ok ((((if "num_class" ∈ ks then ks.erase "num_class" else ks).erase
          "model_type").erase "seed").erase "ml_task") := by
  have hm1 : "model_type" ∈ (if "num_class" ∈ ks then ks.erase "num_class" else ks) := by
    by_cases hnc : "num_class" ∈ ks
    · rw [if_pos hnc]
      exact (List.mem_erase_of_ne (by decide)).mpr hm
    · rw [if_neg hnc]
      exact hm
  have hs1 : "seed" ∈ (if "num_class" ∈ ks then ks.erase "num_class" else ks) := by
    by_cases hnc : "num_class" ∈ ks
    · rw [if_pos hnc]
      exact (List.mem_erase_of_ne (by decide)).mpr hs
    · rw [if_neg hnc]
      exact hs
  have ht1 : "ml_task" ∈ (if "num_class" ∈ ks then ks.erase "num_class" else ks) := by
    by_cases hnc : "num_class" ∈ ks
    · rw [if_pos hnc]
      exact (List.mem_erase_of_ne (by decide)).mpr ht
    · rw [if_neg hnc]
      exact ht
  have hs2 := (List.mem_erase_of_ne (show ("seed" : String) ≠ "model_type" by decide)).mpr hs1
  have ht2 := (List.mem_erase_of_ne (show ("ml_task" : String) ≠ "model_type" by decide)).mpr ht1
  have ht3 := (List.mem_erase_of_ne (show ("ml_task" : String) ≠ "seed" by decide)).mpr ht2
  simp only [removeReserved, if_pos hm1, if_pos hs2, if_pos ht3]

/-- C4: for every configuration whose `model_type` is `"Baseline"` and which
contains the reserved keys `seed` and `ml_task`, `HillClimbing.get` returns
`(null, null)`, for every registry, every `ml_task` argument and every seed
(the global generator is still reseeded first, line 21 preceding line 30). -/
theorem baseline_returns_null_pair (reg : Registry) (params : Config) (task : String)
    (seed : Nat) (g : NpState)
    (hmt : Config.get params "model_type" = Option.some (Value.str "Baseline"))
    (hseed : "seed" ∈ configKeys params) (htask : "ml_task" ∈ configKeys params) :
    HillClimbing.get reg params task seed g
      = (Except.ok (Option.none, Option.none), npSeed seed) := by
  have hm : "model_type" ∈ configKeys params := mem_configKeys_of_lookup hmt
  have hrm := removeReserved_ok_of_mem hm hseed htask
  simp [HillClimbing.get, hrm, hmt]

/-- Witness for C4 at a concrete Baseline configuration. -/
theorem baseline_returns_null_pair_witness :
    HillClimbing.get []
      [("model_type", Value.str "Baseline"), ("seed", Value.num 1), ("ml_task", Value.str "t")]
      "t" 7 ⟨3⟩
      = (Except.ok (Option.none, Option.none), npSeed 7) :=
  baseline_returns_null_pair []
    [("model_type", Value.str "Baseline"), ("seed", Value.num 1), ("ml_task", Value.str "t")]
    "t" 7 ⟨3⟩ rfl (by decide) (by decide)

/-- C10: a configuration whose `model_type` is `"Baseline"` but which lacks
the reserved key `seed` makes `HillClimbing.get` raise (`list.remove` raises
`ValueError`) instead of returning `(null, null)`: the reserved-key removal
of lines 22–27 runs before the Baseline check of lines 29–31. -/
theorem reserved_removal_precedes_baseline_check :
    Config.get [("model_type", Value.str "Baseline"), ("ml_task", Value.str "t")] "model_type"
        = Option.some (Value.str "Baseline")
      ∧ "seed" ∉ configKeys [("model_type", Value.str "Baseline"), ("ml_task", Value.str "t")]
      ∧ HillClimbing.get [] [("model_type", Value.str "Baseline"), ("ml_task", Value.str "t")]
          "t" 1 ⟨0⟩
        = (Except.error PyErr.valueError, npSeed 1) :=
  ⟨rfl, by decide, rfl⟩

/-- C7: the result of `HillClimbing.get` is a function of the configuration,
the task and the seed alone — the state of the process-wide generator before
the call (its only other input) does not influence the returned pair, because
the call reseeds that generator from `seed` before drawing the permutation. -/
theorem get_deterministic (reg : Registry) (params : Config) (task : String) (seed : Nat)
    (g g' : NpState) :
    (HillClimbing.get reg params task seed g).1
      = (HillClimbing.get reg params task seed g').1 := rfl

/-- Statement of claim C8 as written: a call to `HillClimbing.get` leaves the
process-wide random-generator state unchanged. -/
def globalStateUnchanged : Prop :=
  ∀ (reg : Registry) (params : Config) (task : String) (seed : Nat) (g : NpState),
    (HillClimbing.get reg params task seed g).2 = g

/-- Counterexample to C8: already the Baseline short-circuit has executed
`np.random.seed(seed)` (line 21), so with prior global state 0 and seed 5 the
global state after the call is the seeded state, not the prior one. -/
theorem global_seeding_mutates_state : ¬ globalStateUnchanged := fun h =>
  absurd
    (h [] [("model_type", Value.str "Baseline"), ("seed", Value.num 1),
      ("ml_task", Value.str "t")] "t" 5 ⟨0⟩)
    (by decide)

/-- C8 amended: the call does overwrite the process-wide generator state
(line 21 seeds the global numpy generator), but the state it leaves behind is
determined by the call's arguments alone — it does not depend on the random
state found before the call, which is what the per-call reproducibility
contract needs. -/
theorem get_post_state_independent_of_prior (reg : Registry) (params : Config)
    (task : String) (seed : Nat) (g g' : NpState) :
    (HillClimbing.get reg params task seed g).2
      = (HillClimbing.get reg params task seed g').2 := rfl

/-- Fragment of the registered binary-classification Xgboost search space
(`xgb_bin_class_params` in `supervised/algorithms/xgboost.py`). -/
def xgbFragment : SearchSpace :=
  [("booster", [Value.str "gbtree", Value.str "gblinear"])]

/-- Registry holding the Xgboost entry for binary classification. -/
def regBin : Registry := [("binary_classification", [("Xgboost", xgbFragment)])]

/-- A well-formed configuration that carries only the reserved keys, so its
tunable-key set is empty. -/
def cfgOnlyReserved : Config :=
  [("model_type", Value.str "Xgboost"), ("seed", Value.num 1),
   ("ml_task", Value.str "binary_classification")]

/-- C3 (failing input): on a well-formed configuration with an empty
tunable-key set the selection loop of lines 37–40 never runs, the local
`values` is never assigned, and line 43 raises `NameError` — the call errors
instead of returning `(null, null)` as the specification promises. -/
theorem empty_tunable_keys_raise_name_error :
    wellFormed regBin cfgOnlyReserved "binary_classification" = true
      ∧ HillClimbing.get regBin cfgOnlyReserved "binary_classification" 1 ⟨0⟩
        = (Except.error PyErr.nameErrorValues, ⟨2⟩) :=
  ⟨by decide, rfl⟩

/-- C6: when the run selects a key whose current configuration value does not
occur anywhere in the key's registered value sequence, the neighbor scan
registers no match, so the call returns `(null, null)` and raises nothing. -/
theorem value_not_found_returns_null_pair (reg : Registry) (params : Config)
    (task : String) (seed : Nat) (g : NpState) (ks : List String) (mt : Value)
    (mp : SearchSpace) (k : String) (vs : List Value) (cur : Value)
    (hrm : removeReserved (configKeys params) = Except.ok ks)
    (hmt : Config.get params "model_type" = Option.some mt)
    (hnb : mt ≠ Value.str "Baseline")
    (hreg : registryLookup reg task mt = Option.some mp)
    (hsel : selectLoop mp ((npPermutation (npSeed seed) ks).1)
      = Except.ok (Option.some (k, vs)))
    (hcur : Config.get params k = Option.some cur)
    (hnotin : cur ∉ vs) :
    (HillClimbing.get reg params task seed g).1
      = Except.ok (Option.none, Option.none) := by
  have hafter : hcAfter mp params ((npPermutation (npSeed seed) ks).1)
      = Except.ok (Option.none, Option.none) := by
    simp only [hcAfter, hsel]
    cases vs with
    | nil => rfl
    | cons v0 vrest =>
      simp only [hcScanPart, hcur, neighborScan_of_not_mem _ _ hnotin]
      rfl
  simp only [HillClimbing.get, hrm, hmt, if_neg hnb, hreg, hafter]

/-- Witness for C6: the configuration holds `"zzz"` for key `p`, a value
absent from the registered sequence `["a", "b"]`. -/
theorem value_not_found_returns_null_pair_witness :
    (HillClimbing.get [("t", [("M", [("p", [Value.str "a", Value.str "b"])])])]
        [("model_type", Value.str "M"), ("seed", Value.num 1), ("ml_task", Value.str "t"),
          ("p", Value.str "zzz")] "t" 1 ⟨0⟩).1
      = Except.ok (Option.none, Option.none) :=
  value_not_found_returns_null_pair
    [("t", [("M", [("p", [Value.str "a", Value.str "b"])])])]
    [("model_type", Value.str "M"), ("seed", Value.num 1), ("ml_task", Value.str "t"),
      ("p", Value.str "zzz")]
    "t" 1 ⟨0⟩ ["p"] (Value.str "M") [("p", [Value.str "a", Value.str "b"])] "p"
    [Value.str "a", Value.str "b"] (Value.str "zzz")
    rfl rfl (by decide) rfl rfl rfl (by decide)

theorem selectedOf_eq {reg : Registry} {params : Config} {task : String} {seed : Nat}
    {ks : List String} {mt : Value} {mp : SearchSpace} {k : String} {vs : List Value}
    (hrm : removeReserved (configKeys params) = Except.ok ks)
    (hmt : Config.get params "model_type" = Option.some mt)
    (hnb : mt ≠ Value.str "Baseline")
    (hreg : registryLookup reg task mt = Option.some mp)
    (hsel : selectLoop mp ((npPermutation (npSeed seed) ks).1)
      = Except.ok (Option.some (k, vs))) :
    selectedOf reg params task seed = Option.some (k, vs) := by
  simp only [selectedOf, hrm, hmt, if_neg hnb, hreg, hsel]

theorem get_scan_result {reg : Registry} {params : Config} {task : String} {seed : Nat}
    {ks : List String} {mt : Value} {mp : SearchSpace} {k : String} {vs : List Value}
    {cur : Value} (g : NpState)
    (hrm : removeReserved (configKeys params) = Except.ok ks)
    (hmt : Config.get params "model_type" = Option.some mt)
    (hnb : mt ≠ Value.str "Baseline")
    (hreg : registryLookup reg task mt = Option.some mp)
    (hsel : selectLoop mp ((npPermutation (npSeed seed) ks).1)
      = Except.ok (Option.some (k, vs)))
    (hcur : Config.get params k = Option.some cur)
    (hvs : vs ≠ []) :
    (HillClimbing.get reg params task seed g).1
      = Except.ok (buildResult params k (neighborScan vs cur)) := by
  have hafter : hcAfter mp params ((npPermutation (npSeed seed) ks).1)
      = Except.ok (buildResult params k (neighborScan vs cur)) := by
    simp only [hcAfter, hsel]
    cases vs with
    | nil => exact absurd rfl hvs
    | cons v0 vrest => simp only [hcScanPart, hcur]
  simp only [HillClimbing.get, hrm, hmt, if_neg hnb, hreg, hafter]

theorem rightIdxUpTo_spec {vs : List Value} {cur : Value} {n i : Nat}
    (h : rightIdxUpTo vs cur n = Option.some i) :
    vs.getD i Value.null = cur ∧ i + 1 < vs.length ∧ i < n := by
  induction n with
  | zero => simp [rightIdxUpTo] at h
  | succ n ih =>
    simp only [rightIdxUpTo] at h
    by_cases hc : vs.getD n Value.null = cur ∧ n + 1 < vs.length
    · rw [if_pos hc] at h
      injection h with h'
      subst h'
      exact ⟨hc.1, hc.2, Nat.lt_succ_self _⟩
    · rw [if_neg hc] at h
      obtain ⟨h1, h2, h3⟩ := ih h
      exact ⟨h1, h2, Nat.lt_succ_of_lt h3⟩

theorem leftIdxUpTo_spec {vs : List Value} {cur : Value} {n i : Nat}
    (h : leftIdxUpTo vs cur n = Option.some i) :
    vs.getD i Value.null = cur ∧ 1 ≤ i ∧ i < n := by
  induction n with
  | zero => simp [leftIdxUpTo] at h
  | succ n ih =>
    simp only [leftIdxUpTo] at h
    by_cases hc : vs.getD n Value.null = cur ∧ 1 ≤ n
    · rw [if_pos hc] at h
      injection h with h'
      subst h'
      exact ⟨hc.1, hc.2, Nat.lt_succ_self _⟩
    · rw [if_neg hc] at h
      obtain ⟨h1, h2, h3⟩ := ih h
      exact ⟨h1, h2, Nat.lt_succ_of_lt h3⟩

theorem rightIdxUpTo_greatest {vs : List Value} {cur : Value} {n i : Nat}
    (h : rightIdxUpTo vs cur n = Option.some i) {i2 : Nat} (hi2 : i2 < n)
    (hmatch : vs.getD i2 Value.null = cur) (hsucc : i2 + 1 < vs.length) : i2 ≤ i := by
  induction n with
  | zero => exact absurd hi2 (Nat.not_lt_zero i2)
  | succ n ih =>
    simp only [rightIdxUpTo] at h
    by_cases hc : vs.getD n Value.null = cur ∧ n + 1 < vs.length
    · rw [if_pos hc] at h
      injection h with h'
      subst h'
      exact Nat.le_of_lt_succ hi2
    · rw [if_neg hc] at h
      rcases Nat.lt_succ_iff_lt_or_eq.mp hi2 with h' | h'
      · exact ih h h'
      · subst h'
        exact absurd ⟨hmatch, hsucc⟩ hc

theorem rightIdxUpTo_none {vs : List Value} {cur : Value} {n : Nat}
    (h : rightIdxUpTo vs cur n = Option.none) {i2 : Nat} (hi2 : i2 < n)
    (hmatch : vs.getD i2 Value.null = cur) : ¬ i2 + 1 < vs.length := by
  induction n with
  | zero => exact absurd hi2 (Nat.not_lt_zero i2)
  | succ n ih =>
    simp only [rightIdxUpTo] at h
    by_cases hc : vs.getD n Value.null = cur ∧ n + 1 < vs.length
    · rw [if_pos hc] at h
      exact absurd h (by simp)
    · rw [if_neg hc] at h
      rcases Nat.lt_succ_iff_lt_or_eq.mp hi2 with h' | h'
      · exact ih h h'
      · subst h'
        intro hsucc
        exact hc ⟨hmatch, hsucc⟩

theorem leftIdxUpTo_greatest {vs : List Value} {cur : Value} {n i : Nat}
    (h : leftIdxUpTo vs cur n = Option.some i) {i2 : Nat} (hi2 : i2 < n)
    (hmatch : vs.getD i2 Value.null = cur) (hpos : 1 ≤ i2) : i2 ≤ i := by
  induction n with
  | zero => exact absurd hi2 (Nat.not_lt_zero i2)
  | succ n ih =>
    simp only [leftIdxUpTo] at h
    by_cases hc : vs.getD n Value.null = cur ∧ 1 ≤ n
    · rw [if_pos hc] at h
      injection h with h'
      subst h'
      exact Nat.le_of_lt_succ hi2
    · rw [if_neg hc] at h
      rcases Nat.lt_succ_iff_lt_or_eq.mp hi2 with h' | h'
      · exact ih h h'
      · subst h'
        exact absurd ⟨hmatch, hpos⟩ hc

theorem leftIdxUpTo_none {vs : List Value} {cur : Value} {n : Nat}
    (h : leftIdxUpTo vs cur n = Option.none) {i2 : Nat} (hi2 : i2 < n)
    (hmatch : vs.getD i2 Value.null = cur) : ¬ 1 ≤ i2 := by
  induction n with
  | zero => exact absurd hi2 (Nat.not_lt_zero i2)
  | succ n ih =>
    simp only [leftIdxUpTo] at h
    by_cases hc : vs.getD n Value.null = cur ∧ 1 ≤ n
    · rw [if_pos hc] at h
      exact absurd h (by simp)
    · rw [if_neg hc] at h
      rcases Nat.lt_succ_iff_lt_or_eq.mp hi2 with h' | h'
      · exact ih h h'
      · subst h'
        intro hpos
        exact hc ⟨hmatch, hpos⟩

/-- Statement of claim C1 as written, with "the matched index" read as the
last matching index of the scan (the tie-break the specification prescribes
in step 6): right holds the value after the matched index and exists only if
that position does, left symmetrically, and at the first/last position the
corresponding neighbor is null. -/
def adjacencyAndBoundaryLaw : Prop :=
  ∀ (reg : Registry) (params : Config) (task : String) (seed : Nat) (g : NpState)
    (p1 p2 : Option Config) (k : String) (vs : List Value) (cur : Value) (j : Nat),
    wellFormed reg params task = true →
    (HillClimbing.get reg params task seed g).1 = Except.ok (p1, p2) →
    selectedOf reg params task seed = Option.some (k, vs) →
    Config.get params k = Option.some cur →
    lastIdxOf vs cur = Option.some j →
    ((∀ c, p2 = Option.some c →
        j + 1 < vs.length ∧ Config.get c k = Option.some (vs.getD (j + 1) Value.null))
     ∧ (∀ c, p1 = Option.some c →
        1 ≤ j ∧ Config.get c k = Option.some (vs.getD (j - 1) Value.null))
     ∧ (j = 0 → p1 = Option.none)
     ∧ (j + 1 = vs.length → p2 = Option.none))

/-- Search space with a duplicated value for the C1 counterexample. -/
def regC1x : Registry :=
  [("t", [("M", [("r", [Value.str "d", Value.str "e", Value.str "d"])])])]

/-- Configuration whose selected value `"d"` occurs twice in its sequence. -/
def cfgC1x : Config :=
  [("model_type", Value.str "M"), ("seed", Value.num 1), ("ml_task", Value.str "t"),
   ("r", Value.str "d")]

/-- The neighbor configuration the code actually returns for `cfgC1x`. -/
def cfgC1e : Config :=
  [("model_type", Value.str "M"), ("seed", Value.num 1), ("ml_task", Value.str "t"),
   ("r", Value.str "e")]

/-- Counterexample to C1: for the sequence `["d", "e", "d"]` and current
value `"d"`, the last matching index is 2, the final position, so the
boundary law demands a null right neighbor; but the scan of lines 43–48 keeps
the right neighbor set by the earlier match at index 0, so the call returns
a non-null right configuration. -/
theorem duplicate_values_defeat_adjacency_boundary_law : ¬ adjacencyAndBoundaryLaw := by
  intro h
  have h4 := (h regC1x cfgC1x "t" 1 ⟨0⟩ (Option.some cfgC1e) (Option.some cfgC1e) "r"
    [Value.str "d", Value.str "e", Value.str "d"] (Value.str "d") 2
    (by decide) rfl rfl rfl (by decide)).2.2.2
  exact absurd (h4 (by decide)) (by decide)

/-- C1 amended: the adjacency and boundary laws hold whenever the selected
key's current value occurs exactly once in its registered sequence (the
counterexample above shows they can fail when it occurs more than once):
the right neighbor, when non-null, holds the value at the matched index + 1
and exists only when that position does; symmetrically for the left
neighbor; and at index 0 the left neighbor is null, at the final index the
right neighbor is null. -/
theorem adjacency_boundary_for_unique_occurrence (reg : Registry) (params : Config)
    (task : String) (seed : Nat) (g : NpState) (p1 p2 : Option Config) (ks : List String)
    (mt : Value) (mp : SearchSpace) (k : String) (vs : List Value) (cur : Value) (j : Nat)
    (hrm : removeReserved (configKeys params) = Except.ok ks)
    (hmt : Config.get params "model_type" = Option.some mt)
    (hnb : mt ≠ Value.str "Baseline")
    (hreg : registryLookup reg task mt = Option.some mp)
    (hsel : selectLoop mp ((npPermutation (npSeed seed) ks).1)
      = Except.ok (Option.some (k, vs)))
    (hcur : Config.get params k = Option.some cur)
    (hj : j < vs.length) (hval : vs.getD j Value.null = cur)
    (huniq : ∀ i, i < vs.length → vs.getD i Value.null = cur → i = j)
    (hget : (HillClimbing.get reg params task seed g).1 = Except.ok (p1, p2)) :
    ((∀ c, p2 = Option.some c →
        j + 1 < vs.length ∧ Config.get c k = Option.some (vs.getD (j + 1) Value.null))
     ∧ (∀ c, p1 = Option.some c →
        1 ≤ j ∧ Config.get c k = Option.some (vs.getD (j - 1) Value.null))
     ∧ (j = 0 → p1 = Option.none)
     ∧ (j + 1 = vs.length → p2 = Option.none)) := by
  have hvs : vs ≠ [] := by
    intro he
    subst he
    exact absurd hj (Nat.not_lt_zero j)
  have hres := get_scan_result g hrm hmt hnb hreg hsel hcur hvs
  rw [hget] at hres
  simp only [Except.ok.injEq] at hres
  rw [neighborScan_unique vs cur j hj hval huniq] at hres
  simp only [buildResult] at hres
  rw [Prod.mk.injEq] at hres
  obtain ⟨hp1, hp2⟩ := hres
  refine ⟨?_, ?_, ?_, ?_⟩
  · intro c hc
    by_cases hlen : j + 1 < vs.length
    · rw [if_pos hlen] at hp2
      by_cases hnull : vs.getD (j + 1) Value.null ≠ Value.null
      · rw [if_pos hnull] at hp2
        rw [hc] at hp2
        injection hp2 with hp2'
        subst hp2'
        exact ⟨hlen, lookupKey_set_self params k _⟩
      · rw [if_neg hnull] at hp2
        rw [hc] at hp2
        exact absurd hp2 (fun he => Option.noConfusion he)
    · rw [if_neg hlen] at hp2
      rw [if_neg (fun he : ¬ _ = _ => he rfl)] at hp2
      rw [hc] at hp2
      exact absurd hp2 (fun he => Option.noConfusion he)
  · intro c hc
    by_cases hpos : 1 ≤ j
    · rw [if_pos hpos] at hp1
      by_cases hnull : vs.getD (j - 1) Value.null ≠ Value.null
      · rw [if_pos hnull] at hp1
        rw [hc] at hp1
        injection hp1 with hp1'
        subst hp1'
        exact ⟨hpos, lookupKey_set_self params k _⟩
      · rw [if_neg hnull] at hp1
        rw [hc] at hp1
        exact absurd hp1 (fun he => Option.noConfusion he)
    · rw [if_neg hpos] at hp1
      rw [if_neg (fun he : ¬ _ = _ => he rfl)] at hp1
      rw [hc] at hp1
      exact absurd hp1 (fun he => Option.noConfusion he)
  · intro hj0
    subst hj0
    rw [if_neg (by decide : ¬ 1 ≤ 0)] at hp1
    rw [if_neg (fun he : ¬ _ = _ => he rfl)] at hp1
    exact hp1
  · intro hlast
    have hlen : ¬ j + 1 < vs.length := by omega
    rw [if_neg hlen] at hp2
    rw [if_neg (fun he : ¬ _ = _ => he rfl)] at hp2
    exact hp2

/-- Fixture registry for the witnesses: one tunable key `p` with the
ordered sequence `["a", "b", "c"]`. -/
def regFix : Registry :=
  [("t", [("M", [("p", [Value.str "a", Value.str "b", Value.str "c"])])])]

/-- Fixture configuration currently holding the middle value `"b"`. -/
def cfgFix : Config :=
  [("model_type", Value.str "M"), ("seed", Value.num 1), ("ml_task", Value.str "t"),
   ("p", Value.str "b")]

/-- Left neighbor configuration of `cfgFix`. -/
def cfgFixL : Config :=
  [("model_type", Value.str "M"), ("seed", Value.num 1), ("ml_task", Value.str "t"),
   ("p", Value.str "a")]

/-- Right neighbor configuration of `cfgFix`. -/
def cfgFixR : Config :=
  [("model_type", Value.str "M"), ("seed", Value.num 1), ("ml_task", Value.str "t"),
   ("p", Value.str "c")]

/-- Witness for the amended C1 at the fixture: value `"b"` occurs once, at
index 1 of `["a", "b", "c"]`; both neighbors exist and hold `"a"`/`"c"`. -/
theorem adjacency_boundary_for_unique_occurrence_witness :
    ((∀ c, Option.some cfgFixR = Option.some c →
        1 + 1 < 3 ∧ Config.get c "p" = Option.some (Value.str "c"))
     ∧ (∀ c, Option.some cfgFixL = Option.some c →
        1 ≤ 1 ∧ Config.get c "p" = Option.some (Value.str "a"))
     ∧ (1 = 0 → Option.some cfgFixL = Option.none)
     ∧ (1 + 1 = 3 → Option.some cfgFixR = Option.none)) :=
  adjacency_boundary_for_unique_occurrence regFix cfgFix "t" 1 ⟨0⟩
    (Option.some cfgFixL) (Option.some cfgFixR) ["p"] (Value.str "M")
    [("p", [Value.str "a", Value.str "b", Value.str "c"])] "p"
    [Value.str "a", Value.str "b", Value.str "c"] (Value.str "b") 1
    rfl rfl (by decide) rfl rfl rfl (by decide) (by decide) (by decide) rfl

theorem scan_left_ne_cur {vs : List Value} {cur lv rv : Value} (hnodup : vs.Nodup)
    (hsc : neighborScan vs cur = (lv, rv)) (hlv : lv ≠ Value.null) : lv ≠ cur := by
  rw [neighborScan_eq, Prod.mk.injEq] at hsc
  obtain ⟨h1, _⟩ := hsc
  cases hL : leftIdxUpTo vs cur vs.length with
  | none =>
    rw [hL] at h1
    exact absurd h1.symm hlv
  | some i =>
    rw [hL] at h1
    obtain ⟨hmatch, hpos, hlt⟩ := leftIdxUpTo_spec hL
    intro he
    have hi1 : i - 1 < vs.length := Nat.lt_of_le_of_lt (Nat.sub_le i 1) hlt
    simp only [idxValL] at h1
    rw [List.getD_eq_getElem vs Value.null hi1] at h1
    rw [List.getD_eq_getElem vs Value.null hlt] at hmatch
    have heq : vs[i - 1] = vs[i] := by rw [h1, he, ← hmatch]
    have := (List.Nodup.getElem_inj_iff hnodup).mp heq
    omega

theorem scan_right_ne_cur {vs : List Value} {cur lv rv : Value} (hnodup : vs.Nodup)
    (hsc : neighborScan vs cur = (lv, rv)) (hrv : rv ≠ Value.null) : rv ≠ cur := by
  rw [neighborScan_eq, Prod.mk.injEq] at hsc
  obtain ⟨_, h2⟩ := hsc
  cases hR : rightIdxUpTo vs cur vs.length with
  | none =>
    rw [hR] at h2
    exact absurd h2.symm hrv
  | some i =>
    rw [hR] at h2
    obtain ⟨hmatch, hlt1, _⟩ := rightIdxUpTo_spec hR
    intro he
    have hlt : i < vs.length := Nat.lt_of_succ_lt hlt1
    simp only [idxValR] at h2
    rw [List.getD_eq_getElem vs Value.null hlt1] at h2
    rw [List.getD_eq_getElem vs Value.null hlt] at hmatch
    have heq : vs[i + 1] = vs[i] := by rw [h2, he, ← hmatch]
    have := (List.Nodup.getElem_inj_iff hnodup).mp heq
    omega

/-- Statement of claim C2 as written: every non-null member of the pair a
call returns differs from the well-formed input configuration in exactly
one key, and that key is not reserved. -/
def singleKeyDifference : Prop :=
  ∀ (reg : Registry) (params : Config) (task : String) (seed : Nat) (g : NpState)
    (p1 p2 : Option Config) (c : Config),
    wellFormed reg params task = true →
    (HillClimbing.get reg params task seed g).1 = Except.ok (p1, p2) →
    (p1 = Option.some c ∨ p2 = Option.some c) →
    ∃ k, k ∉ reservedKeys ∧ Config.get c k ≠ Config.get params k
      ∧ ∀ j, Config.get c j ≠ Config.get params j → j = k

/-- Counterexample to C2: with the duplicated sequence `["a", "a"]` and
current value `"a"`, both returned members are the input configuration
itself (the selected key is reassigned its own value), so no key differs. -/
theorem duplicate_values_defeat_single_key_difference : ¬ singleKeyDifference := by
  intro h
  obtain ⟨k, _, hdiff, _⟩ :=
    h [("t", [("M", [("p", [Value.str "a", Value.str "a"])])])]
      [("model_type", Value.str "M"), ("seed", Value.num 1), ("ml_task", Value.str "t"),
        ("p", Value.str "a")] "t" 1 ⟨0⟩
      (Option.some [("model_type", Value.str "M"), ("seed", Value.num 1),
        ("ml_task", Value.str "t"), ("p", Value.str "a")])
      (Option.some [("model_type", Value.str "M"), ("seed", Value.num 1),
        ("ml_task", Value.str "t"), ("p", Value.str "a")])
      [("model_type", Value.str "M"), ("seed", Value.num 1),
        ("ml_task", Value.str "t"), ("p", Value.str "a")]
      (by decide) rfl (Or.inl rfl)
  exact hdiff rfl

theorem hcAfter_ok_inversion {mp : SearchSpace} {params : Config} {permuted : List String}
    {p1 p2 : Option Config}
    (h : hcAfter mp params permuted = Except.ok (p1, p2))
    (hne : p1 ≠ Option.none ∨ p2 ≠ Option.none) :
    ∃ k vs cur,
      selectLoop mp permuted = Except.ok (Option.some (k, vs))
      ∧ Config.get params k = Option.some cur
      ∧ (p1, p2) = buildResult params k (neighborScan vs cur) := by
  unfold hcAfter at h
  cases hsel : selectLoop mp permuted with
  | error e => rw [hsel] at h; simp at h
  | ok o =>
    cases o with
    | none => rw [hsel] at h; simp at h
    | some kv =>
      obtain ⟨k, vs⟩ := kv
      rw [hsel] at h
      cases vs with
      | nil =>
        simp only [hcScanPart, Except.ok.injEq, Prod.mk.injEq] at h
        obtain ⟨h1, h2⟩ := h
        cases hne with
        | inl hx => exact absurd h1.symm hx
        | inr hx => exact absurd h2.symm hx
      | cons v0 vrest =>
        simp only [hcScanPart] at h
        cases hcur : Config.get params k with
        | none => rw [hcur] at h; simp at h
        | some cur =>
          rw [hcur] at h
          simp only [Except.ok.injEq] at h
          exact ⟨k, v0 :: vrest, cur, rfl, hcur, h.symm⟩

theorem get_ok_inversion {reg : Registry} {params : Config} {task : String} {seed : Nat}
    {g : NpState} {p1 p2 : Option Config}
    (hget : (HillClimbing.get reg params task seed g).1 = Except.ok (p1, p2))
    (hne : p1 ≠ Option.none ∨ p2 ≠ Option.none) :
    ∃ ks mt mp k vs cur,
      removeReserved (configKeys params) = Except.ok ks
      ∧ Config.get params "model_type" = Option.some mt
      ∧ ¬ mt = Value.str "Baseline"
      ∧ registryLookup reg task mt = Option.some mp
      ∧ selectLoop mp ((npPermutation (npSeed seed) ks).1) = Except.ok (Option.some (k, vs))
      ∧ Config.get params k = Option.some cur
      ∧ (p1, p2) = buildResult params k (neighborScan vs cur) := by
  simp only [HillClimbing.get] at hget
  cases hrm : removeReserved (configKeys params) with
  | error e =>
    simp only [hrm] at hget
    exact Except.noConfusion hget
  | ok ks =>
    simp only [hrm] at hget
    cases hmt : Config.get params "model_type" with
    | none =>
      simp only [hmt] at hget
      exact Except.noConfusion hget
    | some mt =>
      simp only [hmt] at hget
      by_cases hb : mt = Value.str "Baseline"
      · rw [if_pos hb] at hget
        simp only [Except.ok.injEq, Prod.mk.injEq] at hget
        obtain ⟨h1, h2⟩ := hget
        cases hne with
        | inl hx => exact absurd h1.symm hx
        | inr hx => exact absurd h2.symm hx
      · rw [if_neg hb] at hget
        cases hreg : registryLookup reg task mt with
        | none =>
          simp only [hreg] at hget
          exact Except.noConfusion hget
        | some mp =>
          simp only [hreg] at hget
          obtain ⟨k, vs, cur, hsel, hcur, heq⟩ := hcAfter_ok_inversion hget hne
          exact ⟨ks, mt, mp, k, vs, cur, rfl, rfl, hb, hreg, hsel, hcur, heq⟩

/-- C2 amended: every non-null member of a returned pair differs from the
input configuration in at most one key — the selected key, which is never
one of the reserved keys — and when the selected key's registered sequence
has no duplicate values the member differs from the input in exactly that
key.  (With duplicates a member can equal the input, as the counterexample
shows, so "exactly one" weakens to "at most one".) -/
theorem at_most_selected_key_differs (reg : Registry) (params : Config) (task : String)
    (seed : Nat) (g : NpState) (p1 p2 : Option Config) (c : Config)
    (hnd : (configKeys params).Nodup)
    (hget : (HillClimbing.get reg params task seed g).1 = Except.ok (p1, p2))
    (hc : p1 = Option.some c ∨ p2 = Option.some c) :
    ∃ k vs, selectedOf reg params task seed = Option.some (k, vs)
      ∧ k ∉ reservedKeys
      ∧ (∀ j, Config.get c j ≠ Config.get params j → j = k)
      ∧ (vs.Nodup → Config.get c k ≠ Config.get params k) := by
  have hne : p1 ≠ Option.none ∨ p2 ≠ Option.none := by
    cases hc with
    | inl h => exact Or.inl (by rw [h]; exact fun hx => Option.noConfusion hx)
    | inr h => exact Or.inr (by rw [h]; exact fun hx => Option.noConfusion hx)
  obtain ⟨ks, mt, mp, k, vs, cur, hrm, hmt, hb, hreg, hsel, hcur, heq⟩ :=
    get_ok_inversion hget hne
  obtain ⟨hkmem, hkvs⟩ := selectLoop_mem hsel
  simp only [npPermutation] at hkmem
  have hkks : k ∈ ks := List.mem_rotate.mp hkmem
  obtain ⟨hnm, hns, hnt, hncl⟩ := removeReserved_not_reserved hnd hrm
  have hkres : k ∉ reservedKeys := by
    intro hmem
    simp only [reservedKeys, List.mem_cons, List.not_mem_nil, or_false] at hmem
    rcases hmem with h | h | h | h
    · exact hnm (h ▸ hkks)
    · exact hns (h ▸ hkks)
    · exact hnt (h ▸ hkks)
    · exact hncl (h ▸ hkks)
  rcases hsc : neighborScan vs cur with ⟨lv, rv⟩
  rw [hsc] at heq
  simp only [buildResult] at heq
  rw [Prod.mk.injEq] at heq
  obtain ⟨he1, he2⟩ := heq
  have hmain : ∃ v, v ≠ Value.null ∧ c = Config.set params k v
      ∧ (vs.Nodup → v ≠ cur) := by
    cases hc with
    | inl h =>
      rw [h] at he1
      by_cases hlv : lv ≠ Value.null
      · rw [if_pos hlv] at he1
        injection he1 with he1'
        exact ⟨lv, hlv, he1', fun hnodup => scan_left_ne_cur hnodup hsc hlv⟩
      · rw [if_neg hlv] at he1
        exact absurd he1 (fun hx => Option.noConfusion hx)
    | inr h =>
      rw [h] at he2
      by_cases hrv : rv ≠ Value.null
      · rw [if_pos hrv] at he2
        injection he2 with he2'
        exact ⟨rv, hrv, he2', fun hnodup => scan_right_ne_cur hnodup hsc hrv⟩
      · rw [if_neg hrv] at he2
        exact absurd he2 (fun hx => Option.noConfusion hx)
  obtain ⟨v, hv, hcset, hvne⟩ := hmain
  refine ⟨k, vs, selectedOf_eq hrm hmt hb hreg hsel, hkres, ?_, ?_⟩
  · intro j hdiff
    by_contra hjk
    apply hdiff
    rw [hcset]
    exact lookupKey_set_ne params k j v hjk
  · intro hnodup
    rw [hcset]
    have hlk : Config.get (Config.set params k v) k = Option.some v :=
      lookupKey_set_self params k v
    rw [hlk, hcur]
    intro hx
    injection hx with hx'
    exact hvne hnodup hx'

/-- Witness for the amended C2: the right member of the step at the fixture
differs from the input exactly at the selected tunable key `p`. -/
theorem at_most_selected_key_differs_witness :
    ∃ k vs, selectedOf regFix cfgFix "t" 1 = Option.some (k, vs)
      ∧ k ∉ reservedKeys
      ∧ (∀ j, Config.get cfgFixR j ≠ Config.get cfgFix j → j = k)
      ∧ (vs.Nodup → Config.get cfgFixR k ≠ Config.get cfgFix k) :=
  at_most_selected_key_differs regFix cfgFix "t" 1 ⟨0⟩
    (Option.some cfgFixL) (Option.some cfgFixR) cfgFixR (by decide) rfl (Or.inr rfl)

/-- C9: the call never mutates the input configuration — the embedding of
lines 50–56 constructs each non-null member of the result as a deep copy of
the input (`copy.deepcopy`) with only the selected key reassigned, so every
non-null member equals the input configuration updated at the selected key
with a non-null value, and the input value itself is left untouched. -/
theorem results_are_copies_with_one_key_replaced (reg : Registry) (params : Config)
    (task : String) (seed : Nat) (g : NpState) (p1 p2 : Option Config) (c : Config)
    (hget : (HillClimbing.get reg params task seed g).1 = Except.ok (p1, p2))
    (hc : p1 = Option.some c ∨ p2 = Option.some c) :
    ∃ k vs v, selectedOf reg params task seed = Option.some (k, vs)
      ∧ v ≠ Value.null ∧ c = Config.set params k v := by
  have hne : p1 ≠ Option.none ∨ p2 ≠ Option.none := by
    cases hc with
    | inl h => exact Or.inl (by rw [h]; exact fun hx => Option.noConfusion hx)
    | inr h => exact Or.inr (by rw [h]; exact fun hx => Option.noConfusion hx)
  obtain ⟨ks, mt, mp, k, vs, cur, hrm, hmt, hb, hreg, hsel, hcur, heq⟩ :=
    get_ok_inversion hget hne
  rcases hsc : neighborScan vs cur with ⟨lv, rv⟩
  rw [hsc] at heq
  simp only [buildResult] at heq
  rw [Prod.mk.injEq] at heq
  obtain ⟨he1, he2⟩ := heq
  refine ⟨k, vs, ?_⟩
  cases hc with
  | inl h =>
    rw [h] at he1
    by_cases hlv : lv ≠ Value.null
    · rw [if_pos hlv] at he1
      injection he1 with he1'
      exact ⟨lv, selectedOf_eq hrm hmt hb hreg hsel, hlv, he1'⟩
    · rw [if_neg hlv] at he1
      exact absurd he1 (fun hx => Option.noConfusion hx)
  | inr h =>
    rw [h] at he2
    by_cases hrv : rv ≠ Value.null
    · rw [if_pos hrv] at he2
      injection he2 with he2'
      exact ⟨rv, selectedOf_eq hrm hmt hb hreg hsel, hrv, he2'⟩
    · rw [if_neg hrv] at he2
      exact absurd he2 (fun hx => Option.noConfusion hx)

/-- Witness for C9: the left member of the step at the fixture is the input
with the selected key `p` reassigned. -/
theorem results_are_copies_with_one_key_replaced_witness :
    ∃ k vs v, selectedOf regFix cfgFix "t" 1 = Option.some (k, vs)
      ∧ v ≠ Value.null ∧ cfgFixL = Config.set cfgFix k v :=
  results_are_copies_with_one_key_replaced regFix cfgFix "t" 1 ⟨0⟩
    (Option.some cfgFixL) (Option.some cfgFixR) cfgFixL rfl (Or.inl rfl)

/-- Ordered value sequence with a duplicated value, used by the C5
counterexample and witness. -/
def vsDupC5 : List Value := [Value.str "u", Value.str "w", Value.str "u"]

/-- Registry registering `vsDupC5` for key `q`. -/
def regDupC5 : Registry := [("t", [("M", [("q", vsDupC5)])])]

/-- Configuration currently holding the duplicated value `"u"` for `q`. -/
def cfgDupC5 : Config :=
  [("model_type", Value.str "M"), ("seed", Value.num 1), ("ml_task", Value.str "t"),
   ("q", Value.str "u")]

/-- The configuration the code actually returns on both sides for
`cfgDupC5`. -/
def cfgDupC5w : Config :=
  [("model_type", Value.str "M"), ("seed", Value.num 1), ("ml_task", Value.str "t"),
   ("q", Value.str "w")]

/-- Statement of claim C5 as written: with a current value occurring more
than once, the last matching index of the scan determines the neighbors —
left is the value preceding that index and right the value following it,
each absent when the corresponding position does not exist. -/
def lastMatchAloneDeterminesNeighbors : Prop :=
  ∀ (reg : Registry) (params : Config) (task : String) (seed : Nat) (g : NpState)
    (p1 p2 : Option Config) (k : String) (vs : List Value) (cur : Value) (j : Nat),
    wellFormed reg params task = true →
    (HillClimbing.get reg params task seed g).1 = Except.ok (p1, p2) →
    selectedOf reg params task seed = Option.some (k, vs) →
    Config.get params k = Option.some cur →
    1 < (vs.filter (fun v => decide (v = cur))).length →
    lastIdxOf vs cur = Option.some j →
    (p1 = if 1 ≤ j then Option.some (Config.set params k (vs.getD (j - 1) Value.null))
          else Option.none)
    ∧ (p2 = if j + 1 < vs.length
            then Option.some (Config.set params k (vs.getD (j + 1) Value.null))
            else Option.none)

/-- Counterexample to C5: for `["u", "w", "u"]` with current value `"u"` the
last matching index is 2 and position 3 does not exist, so the claim demands
a null right neighbor; the code instead returns the right neighbor set by
the earlier match at index 0 (the value `"w"`). -/
theorem last_match_alone_does_not_determine_neighbors :
    ¬ lastMatchAloneDeterminesNeighbors := by
  intro h
  have h2 := (h regDupC5 cfgDupC5 "t" 1 ⟨0⟩ (Option.some cfgDupC5w)
    (Option.some cfgDupC5w) "q" vsDupC5 (Value.str "u") 2
    (by decide) rfl rfl rfl (by decide) (by decide)).2
  exact absurd h2 (by decide)

/-- C5 amended: the right neighbor is determined by the largest matching
index that still has a following position (`i + 1 < length`) — it holds the
value after that index, and is absent only when no matching index has a
following position; symmetrically, the left neighbor is determined by the
largest matching index that is positive.  In particular, when the last
occurrence of the current value sits at the final position, the right
neighbor comes from the previous occurrence rather than being null. -/
theorem last_viable_match_determines_neighbors (reg : Registry) (params : Config)
    (task : String) (seed : Nat) (g : NpState) (p1 p2 : Option Config) (ks : List String)
    (mt : Value) (mp : SearchSpace) (k : String) (vs : List Value) (cur : Value)
    (hrm : removeReserved (configKeys params) = Except.ok ks)
    (hmt : Config.get params "model_type" = Option.some mt)
    (hnb : mt ≠ Value.str "Baseline")
    (hreg : registryLookup reg task mt = Option.some mp)
    (hsel : selectLoop mp ((npPermutation (npSeed seed) ks).1)
      = Except.ok (Option.some (k, vs)))
    (hcur : Config.get params k = Option.some cur)
    (hvs : vs ≠ [])
    (hget : (HillClimbing.get reg params task seed g).1 = Except.ok (p1, p2)) :
    (p2 = (match rightIdxUpTo vs cur vs.length with
           | Option.some i =>
             if vs.getD (i + 1) Value.null ≠ Value.null
             then Option.some (Config.set params k (vs.getD (i + 1) Value.null))
             else Option.none
           | Option.none => Option.none))
    ∧ (p1 = (match leftIdxUpTo vs cur vs.length with
           | Option.some i =>
             if vs.getD (i - 1) Value.null ≠ Value.null
             then Option.some (Config.set params k (vs.getD (i - 1) Value.null))
             else Option.none
           | Option.none => Option.none))
    ∧ (∀ i, rightIdxUpTo vs cur vs.length = Option.some i →
        vs.getD i Value.null = cur ∧ i + 1 < vs.length ∧
        ∀ i2, i2 < vs.length → vs.getD i2 Value.null = cur → i2 + 1 < vs.length → i2 ≤ i)
    ∧ (rightIdxUpTo vs cur vs.length = Option.none →
        ∀ i2, i2 < vs.length → vs.getD i2 Value.null = cur → ¬ i2 + 1 < vs.length)
    ∧ (∀ i, leftIdxUpTo vs cur vs.length = Option.some i →
        vs.getD i Value.null = cur ∧ 1 ≤ i ∧
        ∀ i2, i2 < vs.length → vs.getD i2 Value.null = cur → 1 ≤ i2 → i2 ≤ i)
    ∧ (leftIdxUpTo vs cur vs.length = Option.none →
        ∀ i2, i2 < vs.length → vs.getD i2 Value.null = cur → ¬ 1 ≤ i2) := by
  have hres := get_scan_result g hrm hmt hnb hreg hsel hcur hvs
  rw [hget] at hres
  simp only [Except.ok.injEq] at hres
  rw [neighborScan_eq] at hres
  simp only [buildResult] at hres
  rw [Prod.mk.injEq] at hres
  obtain ⟨hp1, hp2⟩ := hres
  refine ⟨?_, ?_, ?_, ?_, ?_, ?_⟩
  · cases hR : rightIdxUpTo vs cur vs.length with
    | none =>
      rw [hR] at hp2
      simp only [idxValR] at hp2
      rw [if_neg (fun he : ¬ _ = _ => he rfl)] at hp2
      exact hp2
    | some i =>
      rw [hR] at hp2
      simp only [idxValR] at hp2
      exact hp2
  · cases hL : leftIdxUpTo vs cur vs.length with
    | none =>
      rw [hL] at hp1
      simp only [idxValL] at hp1
      rw [if_neg (fun he : ¬ _ = _ => he rfl)] at hp1
      exact hp1
    | some i =>
      rw [hL] at hp1
      simp only [idxValL] at hp1
      exact hp1
  · intro i hEq
    obtain ⟨h1, h2, _⟩ := rightIdxUpTo_spec hEq
    exact ⟨h1, h2, fun i2 hi2 hm hs => rightIdxUpTo_greatest hEq hi2 hm hs⟩
  · intro hEq i2 hi2 hm
    exact rightIdxUpTo_none hEq hi2 hm
  · intro i hEq
    obtain ⟨h1, h2, _⟩ := leftIdxUpTo_spec hEq
    exact ⟨h1, h2, fun i2 hi2 hm hpos => leftIdxUpTo_greatest hEq hi2 hm hpos⟩
  · intro hEq i2 hi2 hm
    exact leftIdxUpTo_none hEq hi2 hm

/-- Witness for the amended C5 at the duplicated sequence `["u", "w", "u"]`:
both neighbors are non-null and hold `"w"` — the right neighbor coming from
the earlier occurrence at index 0. -/
theorem last_viable_match_determines_neighbors_witness :
    (Option.some cfgDupC5w = (match rightIdxUpTo vsDupC5 (Value.str "u") vsDupC5.length with
           | Option.some i =>
             if vsDupC5.getD (i + 1) Value.null ≠ Value.null
             then Option.some (Config.set cfgDupC5 "q" (vsDupC5.getD (i + 1) Value.null))
             else Option.none
           | Option.none => Option.none))
    ∧ (Option.some cfgDupC5w = (match leftIdxUpTo vsDupC5 (Value.str "u") vsDupC5.length with
           | Option.some i =>
             if vsDupC5.getD (i - 1) Value.null ≠ Value.null
             then Option.some (Config.set cfgDupC5 "q" (vsDupC5.getD (i - 1) Value.null))
             else Option.none
           | Option.none => Option.none))
    ∧ (∀ i, rightIdxUpTo vsDupC5 (Value.str "u") vsDupC5.length = Option.some i →
        vsDupC5.getD i Value.null = Value.str "u" ∧ i + 1 < vsDupC5.length ∧
        ∀ i2, i2 < vsDupC5.length → vsDupC5.getD i2 Value.null = Value.str "u" →
          i2 + 1 < vsDupC5.length → i2 ≤ i)
    ∧ (rightIdxUpTo vsDupC5 (Value.str "u") vsDupC5.length = Option.none →
        ∀ i2, i2 < vsDupC5.length → vsDupC5.getD i2 Value.null = Value.str "u" →
          ¬ i2 + 1 < vsDupC5.length)
    ∧ (∀ i, leftIdxUpTo vsDupC5 (Value.str "u") vsDupC5.length = Option.some i →
        vsDupC5.getD i Value.null = Value.str "u" ∧ 1 ≤ i ∧
        ∀ i2, i2 < vsDupC5.length → vsDupC5.getD i2 Value.null = Value.str "u" →
          1 ≤ i2 → i2 ≤ i)
    ∧ (leftIdxUpTo vsDupC5 (Value.str "u") vsDupC5.length = Option.none →
        ∀ i2, i2 < vsDupC5.length → vsDupC5.getD i2 Value.null = Value.str "u" →
          ¬ 1 ≤ i2) :=
  last_viable_match_determines_neighbors regDupC5 cfgDupC5 "t" 1 ⟨0⟩
    (Option.some cfgDupC5w) (Option.some cfgDupC5w) ["q"] (Value.str "M")
    [("q", vsDupC5)] "q" vsDupC5 (Value.str "u")
    rfl rfl (by decide) rfl rfl rfl (by decide) rfl

/-- The modelled permutation is a permutation of its input, as
`np.random.permutation` guarantees. -/
theorem npPermutation_perm (g : NpState) (l : List String) :
    ((npPermutation g l).1).Perm l := List.rotate_perm l g.st
